import Mathlib

/-!
Shallow embedding of the AMM prediction-market server (server.js variant backed
by the `markets`/`positions`/`bets` SQLite schema in db.js).  Market pool
quantities, share counts and currency amounts are JS numbers; they are embedded
as rationals.  The pricing functions imported from market.js are not part of
the repository sources, so the trade handlers are parameterised over them, and
a separate real-valued model of the pricing engine, taken from the spec, is
given at the end for the algebraic round-trip property.
-/

namespace PredMarket

/-- The internal side tag computed by the handlers ("answer1" / "answer2"). -/
inductive SideKey where
  | answer1
  | answer2
  deriving DecidableEq, Repr

/-- A market row as held in the in-memory active list (fields used by the
handlers; `Answer1`/`Answer2` keep the source capitalisation). -/
structure Market where
  id : Nat
  Answer1 : String
  Answer2 : String
  q1 : Rat
  q2 : Rat
  b : Rat
  status : String
  result : Option String
  expires : Nat
  deriving DecidableEq, Repr

/-- A row of the `positions` table. -/
structure Position where
  id : Nat
  userId : String
  username : String
  marketId : Nat
  side : String
  shares : Rat
  deriving DecidableEq, Repr

/-- A row of the `bets` table (`betType` embeds the column named "type"). -/
structure Bet where
  id : Nat
  userId : String
  username : String
  predictionId : Nat
  choice : String
  amount : Rat
  shares : Rat
  betType : String
  timestamp : Nat
  paidOut : Bool
  deriving DecidableEq, Repr

/-- One element of the `payouts` array built by POST /admin/resolve. -/
structure PayoutEntry where
  userId : String
  username : String
  shares : Rat
  payout : Rat
  deriving DecidableEq, Repr

/-- The whole mutable state of the server: the two in-memory market lists and
the `positions` and `bets` tables, with the auto-increment counters. -/
structure ServerState where
  activeMarkets : List Market
  resolvedMarkets : List Market
  positions : List Position
  bets : List Bet
  nextPosId : Nat
  nextBetId : Nat
  deriving DecidableEq, Repr

/-- Error responses of the handlers, named after the response messages. -/
inductive ApiError where
  | missingParams
  | invalidAmount
  | invalidShares
  | notFound
  | marketClosed
  | invalidSide
  | amountTooSmall
  | notEnoughShares
  | unauthorized
  deriving DecidableEq, Repr

/-- Rounding to two decimal places, the embedding of `+x.toFixed(2)`. -/
def round2 (x : Rat) : Rat := (round (x * 100) : Rat) / 100

/-- SELECT * FROM positions WHERE userId = ? AND marketId = ? AND side = ? -/
def getPosition (userId : String) (marketId : Nat) (side : String)
    (positions : List Position) : Option Position :=
  positions.find? fun p => p.userId = userId ∧ p.marketId = marketId ∧ p.side = side

/-- db.js upsertPosition: increment the matching row, else insert a fresh one. -/
def upsertPosition (userId username : String) (marketId : Nat) (side : String)
    (additionalShares : Rat) (positions : List Position) (nextPosId : Nat) :
    List Position × Nat :=
  match getPosition userId marketId side positions with
  | some existing =>
      (positions.map fun p =>
        if p.id = existing.id then
          { p with shares := p.shares + additionalShares, username := username }
        else p, nextPosId)
  | none =>
      (positions ++ [⟨nextPosId, userId, username, marketId, side, additionalShares⟩],
       nextPosId + 1)

/-- db.js reducePosition: clamp at 0 and delete the row when it reaches 0. -/
def reducePosition (userId : String) (marketId : Nat) (side : String)
    (reduceShares : Rat) (positions : List Position) : List Position :=
  match getPosition userId marketId side positions with
  | none => positions
  | some pos =>
      let newShares := max 0 (pos.shares - reduceShares)
      if newShares = 0 then positions.filter (fun p => ¬ p.id = pos.id)
      else positions.map fun p =>
        if p.id = pos.id then { p with shares := newShares } else p

/-- SELECT * FROM positions WHERE marketId = ? -/
def getPositionsByMarket (marketId : Nat) (positions : List Position) :
    List Position :=
  positions.filter fun p => p.marketId = marketId

/-- db.js saveBet: append a wager record (paidOut defaults to 0). -/
def saveBet (userId username : String) (predictionId : Nat) (choice : String)
    (amount shares : Rat) (betType : String) (timestamp : Nat)
    (bets : List Bet) (nextBetId : Nat) : List Bet × Nat × Nat :=
  (bets ++ [⟨nextBetId, userId, username, predictionId, choice, amount, shares,
            betType, timestamp, false⟩], nextBetId, nextBetId + 1)

/-- db.js markBetsPaid: set paidOut = 1 on each listed record. -/
def markBetsPaid (betIds : List Nat) (bets : List Bet) : List Bet :=
  betIds.foldl
    (fun bs i => bs.map fun b => if b.id = i then { b with paidOut := true } else b)
    bets

/-- Replace the first list element satisfying the test, the functional image of
mutating the object returned by Array.prototype.find in place. -/
def updateFirst (f : Market → Market) (p : Market → Bool) : List Market → List Market
  | [] => []
  | m :: rest => if p m then f m :: rest else m :: updateFirst f p rest

/-- Remove the first list element satisfying the test (Array.prototype.splice
at the index found by findIndex). -/
def removeFirst (p : Market → Bool) : List Market → List Market
  | [] => []
  | m :: rest => if p m then rest else m :: removeFirst p rest

/-- The side-string test at the top of POST /bet. -/
def sideKeyFor (m : Market) (side : String) : Option SideKey :=
  if side = m.Answer1 then some SideKey.answer1
  else if side = m.Answer2 then some SideKey.answer2
  else none

/-- The pool quantity of the given side. -/
def poolOf (m : Market) : SideKey → Rat
  | SideKey.answer1 => m.q1
  | SideKey.answer2 => m.q2

/-- Success payload of POST /bet. -/
structure BetOk where
  betId : Nat
  shares : Rat
  amount : Rat
  deriving DecidableEq, Repr

/-- POST /bet.  The pricing function imported from market.js is passed in as
`sfa` (sharesForAmount); `now` is the clock read used for the trade log
timestamp.  Every error path returns the state unchanged. -/
def betHandler (sfa : Rat → Rat → Rat → SideKey → Rat → Rat) (now : Nat)
    (st : ServerState) (userId username : String) (predictionId : Nat)
    (side : String) (amount : Rat) : Except ApiError BetOk × ServerState :=
  if userId = "" ∨ username = "" ∨ side = "" then (.error .missingParams, st)
  else if amount ≤ 0 then (.error .invalidAmount, st)
  else
    match st.activeMarkets.find? (fun m => m.id = predictionId) with
    | none => (.error .notFound, st)
    | some market =>
      if market.status ≠ "" ∧ market.status ≠ "open" then (.error .marketClosed, st)
      else
        match sideKeyFor market side with
        | none => (.error .invalidSide, st)
        | some sideKey =>
          let deltaShares := sfa market.q1 market.q2 market.b sideKey amount
          if deltaShares ≤ 0 then (.error .amountTooSmall, st)
          else
            let newMarket :=
              match sideKey with
              | SideKey.answer1 => { market with q1 := market.q1 + deltaShares }
              | SideKey.answer2 => { market with q2 := market.q2 + deltaShares }
            let active2 :=
              updateFirst (fun _ => newMarket) (fun m => m.id = predictionId)
                st.activeMarkets
            let saved := saveBet userId username predictionId side amount
              deltaShares "buy" now st.bets st.nextBetId
            let ups := upsertPosition userId username predictionId side
              deltaShares st.positions st.nextPosId
            (.ok ⟨saved.2.1, deltaShares, amount⟩,
             { st with activeMarkets := active2, bets := saved.1,
                       positions := ups.1, nextPosId := ups.2,
                       nextBetId := saved.2.2 })

/-- POST /cashout.  `afs` is amountForSell from market.js; `houseFee` is the
HOUSE_FEE configuration value. -/
def cashoutHandler (afs : Rat → Rat → Rat → SideKey → Rat → Rat)
    (houseFee : Rat) (now : Nat) (st : ServerState)
    (userId username : String) (predictionId : Nat) (side : String)
    (s : Rat) : Except ApiError Rat × ServerState :=
  if userId = "" ∨ username = "" ∨ side = "" then (.error .missingParams, st)
  else if s ≤ 0 then (.error .invalidShares, st)
  else
    match st.activeMarkets.find? (fun m => m.id = predictionId) with
    | none => (.error .notFound, st)
    | some market =>
      if market.status ≠ "" ∧ market.status ≠ "open" then (.error .marketClosed, st)
      else
        match getPosition userId predictionId side st.positions with
        | none => (.error .notEnoughShares, st)
        | some pos =>
          if pos.shares < s then (.error .notEnoughShares, st)
          else
            let sideKey :=
              if side = market.Answer1 then SideKey.answer1 else SideKey.answer2
            let gross := afs market.q1 market.q2 market.b sideKey s
            let payout := round2 (gross * (1 - houseFee))
            let newMarket :=
              match sideKey with
              | SideKey.answer1 => { market with q1 := max 0 (market.q1 - s) }
              | SideKey.answer2 => { market with q2 := max 0 (market.q2 - s) }
            let active2 :=
              updateFirst (fun _ => newMarket) (fun m => m.id = predictionId)
                st.activeMarkets
            let positions2 := reducePosition userId predictionId side s st.positions
            let saved := saveBet userId username predictionId side payout s
              "sell" now st.bets st.nextBetId
            (.ok payout,
             { st with activeMarkets := active2, positions := positions2,
                       bets := saved.1, nextBetId := saved.2.2 })

/-- The per-position step of the payout loop in POST /admin/resolve. -/
def resolveStep (houseFee : Rat) (marketId : Nat) (result : String)
    (acc : List PayoutEntry × List Position) (p : Position) :
    List PayoutEntry × List Position :=
  if p.side = result then
    let payout := round2 (p.shares * (1 - houseFee))
    (acc.1 ++ [⟨p.userId, p.username, p.shares, payout⟩],
     reducePosition p.userId marketId p.side p.shares acc.2)
  else acc

/-- POST /admin/resolve: pay winners, clear their positions, archive the
market and drop it from the active list. -/
def resolveHandler (houseFee : Rat) (adminKey adminKeyConfig : String)
    (st : ServerState) (predictionId : Nat) (result : String) :
    Except ApiError (Market × List PayoutEntry) × ServerState :=
  if adminKey ≠ adminKeyConfig then (.error .unauthorized, st)
  else
    match st.activeMarkets.find? (fun m => m.id = predictionId) with
    | none => (.error .notFound, st)
    | some market0 =>
      let market := { market0 with status := "resolved", result := some result }
      let snapshot := getPositionsByMarket market.id st.positions
      let folded := snapshot.foldl (resolveStep houseFee market.id result)
        ([], st.positions)
      let resolved1 := market :: st.resolvedMarkets
      let resolved2 := if resolved1.length > 200 then resolved1.take 200 else resolved1
      let active2 := removeFirst (fun m => m.id = predictionId) st.activeMarkets
      (.ok (market, folded.1),
       { st with activeMarkets := active2, resolvedMarkets := resolved2,
                 positions := folded.2 })

/-- Modelled from the spec: market.js is not among the repository sources, so
the LMSR cumulative cost function is taken from the specification text,
`cost(poolA, poolB, b) = b * ln(exp(poolA/b) + exp(poolB/b))`. -/
noncomputable def cost (poolA poolB b : ℝ) : ℝ :=
  b * Real.log (Real.exp (poolA / b) + Real.exp (poolB / b))

/-- Modelled from the spec: the cost of the pool state reached from
`(poolA, poolB)` by adding `d` shares on the given side. -/
noncomputable def costAfterBuy (side : SideKey) (poolA poolB b d : ℝ) : ℝ :=
  match side with
  | SideKey.answer1 => cost (poolA + d) poolB b
  | SideKey.answer2 => cost poolA (poolB + d) b

/-- Modelled from the spec: `sharesForSpend(side, poolA, poolB, b, amount)` is
the unique non-negative `d` with
`cost(pool_side + d, pool_other, b) - cost(poolA, poolB, b) = amount`, and 0
when `amount <= 0` (the source computes it by bounded binary search; the model
takes the exact solution the search approximates). -/
noncomputable def sharesForSpend (side : SideKey) (poolA poolB b amount : ℝ) : ℝ :=
  if amount ≤ 0 then 0
  else
    haveI := Classical.propDecidable
      (∃ d, 0 ≤ d ∧ costAfterBuy side poolA poolB b d - cost poolA poolB b = amount)
    if h : ∃ d, 0 ≤ d ∧ costAfterBuy side poolA poolB b d - cost poolA poolB b = amount
    then h.choose
    else 0

/-- Modelled from the spec: `amountForSell(side, poolA, poolB, b, shares) =
cost(poolA, poolB, b) - cost(pool_side - shares, pool_other, b)`, the reduced
pool clamped at 0. -/
noncomputable def amountForSell (side : SideKey) (poolA poolB b shares : ℝ) : ℝ :=
  cost poolA poolB b -
    (match side with
     | SideKey.answer1 => cost (max 0 (poolA - shares)) poolB b
     | SideKey.answer2 => cost poolA (max 0 (poolB - shares)) b)

/-- Shares the user currently holds on one side of one market (0 when the
position row is absent). -/
def heldShares (userId : String) (marketId : Nat) (side : String)
    (positions : List Position) : Rat :=
  match getPosition userId marketId side positions with
  | none => 0
  | some p => p.shares

end PredMarket

deriving instance DecidableEq for Except

namespace PredMarket

/-- A concrete pricing function usable to instantiate the handlers: one share
per unit of currency. -/
def linearShares : Rat → Rat → Rat → SideKey → Rat → Rat := fun _ _ _ _ a => a

/-- Sample market used by the concrete instantiations below. -/
def mkt1 : Market := ⟨1, "Yes", "No", 0, 0, 50, "open", none, 1000⟩

/-- Sample winning position. -/
def posW : Position := ⟨10, "u1", "alice", 1, "Yes", 2⟩

/-- Sample losing position. -/
def posL : Position := ⟨11, "u2", "bob", 1, "No", 3⟩

/-- Sample buy-type wager record on the winning side, not yet paid out. -/
def bet0 : Bet := ⟨5, "u1", "alice", 1, "Yes", 2, 2, "buy", 7, false⟩

/-- Sample server state: one open market, one position per side, one buy. -/
def st0 : ServerState := ⟨[mkt1], [], [posW, posL], [bet0], 12, 6⟩

/-- Sample state whose only market is already resolved but still sits in the
active list. -/
def stResolved : ServerState :=
  ⟨[{ mkt1 with status := "resolved", result := some "Yes" }], [], [posW, posL],
   [bet0], 12, 6⟩

lemma find?_updateFirst (p : Market → Bool) (nm : Market) (l : List Market)
    (m0 : Market) (hfind : l.find? p = some m0) (hnm : p nm = true) :
    (updateFirst (fun _ => nm) p l).find? p = some nm := by
  induction l with
  | nil => simp at hfind
  | cons x rest ih =>
    by_cases hx : p x
    · simp [updateFirst, hx, hnm]
    · rw [List.find?_cons_of_neg _ hx] at hfind
      simp only [updateFirst, if_neg hx]
      rw [List.find?_cons_of_neg _ hx]
      exact ih hfind

lemma find?_removeFirst_eq_none (pid : Nat) (l : List Market)
    (hnodup : (l.map Market.id).Nodup) :
    (removeFirst (fun m => m.id = pid) l).find? (fun m => m.id = pid) = none := by
  induction l with
  | nil => rfl
  | cons x rest ih =>
    simp only [List.map_cons, List.nodup_cons] at hnodup
    by_cases hx : x.id = pid
    · rw [show removeFirst (fun m => decide (m.id = pid)) (x :: rest) = rest by
        simp [removeFirst, hx]]
      rw [List.find?_eq_none]
      intro y hy hyp
      exact hnodup.1 (by
        refine List.mem_map.mpr ⟨y, hy, ?_⟩
        have hy2 : y.id = pid := by simpa using hyp
        rw [hy2, hx])
    · rw [show removeFirst (fun m => decide (m.id = pid)) (x :: rest)
          = x :: removeFirst (fun m => decide (m.id = pid)) rest by
        simp [removeFirst, hx]]
      rw [List.find?_cons_of_neg _ (by simpa using hx)]
      exact ih hnodup.2

set_option maxRecDepth 4000 in
/-- C3 counterexample: a concrete resolution with a winning buy-type wager
record.  The resolution succeeds and pays the winner, yet the record's
paidOut flag is still false afterwards, so the claim that every winning
buy-type record has paidOut set to true by the resolution is false. -/
theorem resolve_paidOut_cex :
    (resolveHandler (1/20) "k" "k" st0 1 "Yes").1 =
      .ok (⟨1, "Yes", "No", 0, 0, 50, "resolved", some "Yes", 1000⟩,
           [⟨"u1", "alice", 2, 19/10⟩]) ∧
    (resolveHandler (1/20) "k" "k" st0 1 "Yes").2.bets = [bet0] ∧
    bet0.betType = "buy" ∧ bet0.choice = "Yes" ∧ bet0.predictionId = 1 ∧
    bet0.paidOut = false := by
  with_unfolding_all decide

/-- C3 amended: the resolve handler never touches the bets table at all — no
wager record has its paidOut flag set by resolution (markBetsPaid exists in
db.js but is never invoked), and consequently no record ever transitions
paidOut twice. -/
theorem resolve_leaves_wager_log_unchanged (houseFee : Rat)
    (adminKey adminKeyConfig : String) (st : ServerState)
    (predictionId : Nat) (result : String) :
    (resolveHandler houseFee adminKey adminKeyConfig st predictionId result).2.bets
      = st.bets := by
  unfold resolveHandler
  split
  · rfl
  · split <;> rfl

/-- C4: a buy or sell request addressed to a market present in the active list
with status resolved fails with the market-closed (AlreadyResolved) error and
returns the state entirely unchanged: pools, positions and the wager log are
as before. -/
theorem trade_on_resolved_market_rejected
    (sfa afs : Rat → Rat → Rat → SideKey → Rat → Rat) (houseFee : Rat)
    (now : Nat) (st : ServerState) (userId username : String) (pid : Nat)
    (side : String) (amount s : Rat) (m0 : Market)
    (hu : userId ≠ "") (hun : username ≠ "") (hside : side ≠ "")
    (hamt : 0 < amount) (hs : 0 < s)
    (hfind : st.activeMarkets.find? (fun m => m.id = pid) = some m0)
    (hres : m0.status = "resolved") :
    betHandler sfa now st userId username pid side amount
      = (.error .marketClosed, st) ∧
    cashoutHandler afs houseFee now st userId username pid side s
      = (.error .marketClosed, st) := by
  constructor
  · unfold betHandler
    simp [hfind, hu, hun, hside, not_le.mpr hamt, hres]
  · unfold cashoutHandler
    simp [hfind, hu, hun, hside, not_le.mpr hs, hres]

/-- C4 witness: a concrete resolved market still sitting in the active list. -/
theorem trade_on_resolved_market_rejected_witness :
    betHandler linearShares 99 stResolved "u1" "alice" 1 "Yes" 5
      = (.error .marketClosed, stResolved) ∧
    cashoutHandler linearShares (1/20) 99 stResolved "u1" "alice" 1 "Yes" 1
      = (.error .marketClosed, stResolved) :=
  trade_on_resolved_market_rejected linearShares linearShares (1/20) 99
    stResolved "u1" "alice" 1 "Yes" 5 1
    { mkt1 with status := "resolved", result := some "Yes" }
    (by decide) (by decide) (by decide) (by norm_num) (by norm_num)
    (by decide) (by decide)

/-- C5: a sell request for more shares than the user holds on that side of
that market fails with the insufficient-shares error and returns the state
unchanged: no pool decrement, no position change, no sell record appended. -/
theorem sell_insufficient_shares_rejected
    (afs : Rat → Rat → Rat → SideKey → Rat → Rat) (houseFee : Rat)
    (now : Nat) (st : ServerState) (userId username : String) (pid : Nat)
    (side : String) (s : Rat) (m0 : Market)
    (hu : userId ≠ "") (hun : username ≠ "") (hside : side ≠ "")
    (hs : 0 < s)
    (hfind : st.activeMarkets.find? (fun m => m.id = pid) = some m0)
    (hopen : m0.status = "open")
    (hheld : heldShares userId pid side st.positions < s) :
    cashoutHandler afs houseFee now st userId username pid side s
      = (.error .notEnoughShares, st) := by
  unfold cashoutHandler
  cases hpos : getPosition userId pid side st.positions with
  | none => simp [hfind, hu, hun, hside, not_le.mpr hs, hopen, hpos]
  | some pos =>
    have hlt : pos.shares < s := by simpa [heldShares, hpos] using hheld
    simp [hfind, hu, hun, hside, not_le.mpr hs, hopen, hpos, hlt]

set_option maxRecDepth 8000 in
/-- C6 counterexample: resolving the same market twice.  The second attempt
fails with the not-found error rather than the market-closed
(AlreadyResolved) one, because the first resolution removed the market from
the active list and the resolve handler checks only membership in that list;
the market does exist in the resolved archive, so not-found is also returned
for a market that exists. -/
theorem resolve_twice_cex :
    (resolveHandler (1/20) "k" "k"
        (resolveHandler (1/20) "k" "k" st0 1 "Yes").2 1 "No").1
      = .error .notFound ∧
    ApiError.notFound ≠ ApiError.marketClosed ∧
    (resolveHandler (1/20) "k" "k" st0 1 "Yes").2.resolvedMarkets ≠ [] := by
  with_unfolding_all decide

/-- C6 amended: resolving a market a second time (after a first successful
resolution) fails with NotFound and leaves the state unchanged, because
resolution removes the market from the active list and the resolve handler
has no status check: it fails with NotFound exactly when no market with that
id is in the active list. -/
theorem resolve_twice_notFound (houseFee : Rat) (key : String)
    (st : ServerState) (pid : Nat) (result result2 : String) (m0 : Market)
    (hfind : st.activeMarkets.find? (fun m => m.id = pid) = some m0)
    (hnodup : (st.activeMarkets.map Market.id).Nodup) :
    resolveHandler houseFee key key
        (resolveHandler houseFee key key st pid result).2 pid result2
      = (.error .notFound, (resolveHandler houseFee key key st pid result).2) := by
  set st1 := (resolveHandler houseFee key key st pid result).2 with hst1
  have h1 : st1.activeMarkets = removeFirst (fun m => m.id = pid) st.activeMarkets := by
    rw [hst1]
    unfold resolveHandler
    simp [hfind]
  have h2 : st1.activeMarkets.find? (fun m => m.id = pid) = none := by
    rw [h1]
    exact find?_removeFirst_eq_none pid _ hnodup
  show resolveHandler houseFee key key st1 pid result2 = (.error .notFound, st1)
  unfold resolveHandler
  simp [h2]

set_option maxRecDepth 8000 in
/-- C6 witness for the amended statement, at the concrete sample state. -/
theorem resolve_twice_notFound_witness :
    resolveHandler (1/20) "k" "k"
        (resolveHandler (1/20) "k" "k" st0 1 "Yes").2 1 "No"
      = (.error .notFound, (resolveHandler (1/20) "k" "k" st0 1 "Yes").2) :=
  resolve_twice_notFound (1/20) "k" st0 1 "Yes" "No" mkt1
    (by with_unfolding_all decide) (by with_unfolding_all decide)

/-- The composite key of the positions table (UNIQUE(userId, marketId, side)). -/
def posKey (p : Position) : String × Nat × String := (p.userId, p.marketId, p.side)

lemma mem_of_map_nodup {α β : Type} (f : α → β) (l : List α)
    (hnodup : (l.map f).Nodup) {a b : α} (ha : a ∈ l) (hb : b ∈ l)
    (hf : f a = f b) : a = b := by
  induction l with
  | nil => cases ha
  | cons x rest ih =>
    simp only [List.map_cons, List.nodup_cons] at hnodup
    rcases List.mem_cons.mp ha with rfl | ha2
    · rcases List.mem_cons.mp hb with rfl | hb2
      · rfl
      · exact absurd (List.mem_map.mpr ⟨b, hb2, hf.symm⟩) hnodup.1
    · rcases List.mem_cons.mp hb with rfl | hb2
      · exact absurd (List.mem_map.mpr ⟨a, ha2, hf⟩) hnodup.1
      · exact ih hnodup.2 ha2 hb2

lemma getPosition_eq_self (P : List Position) (p : Position) (hp : p ∈ P)
    (hkeys : (P.map posKey).Nodup) :
    getPosition p.userId p.marketId p.side P = some p := by
  cases hq : getPosition p.userId p.marketId p.side P with
  | none =>
    rw [getPosition, List.find?_eq_none] at hq
    exact absurd (by simp) (hq p hp)
  | some q =>
    have hqmem : q ∈ P := List.mem_of_find?_eq_some hq
    have hqpred := List.find?_some hq
    have hkey : posKey q = posKey p := by
      simp only [decide_eq_true_eq] at hqpred
      simp [posKey, hqpred.1, hqpred.2.1, hqpred.2.2]
    rw [mem_of_map_nodup posKey P hkeys hqmem hp hkey]

lemma reducePosition_self (P : List Position) (p : Position) (mid : Nat)
    (hp : p ∈ P) (hmid : p.marketId = mid)
    (hkeys : (P.map posKey).Nodup) :
    reducePosition p.userId mid p.side p.shares P
      = P.filter (fun q => ¬ q.id = p.id) := by
  subst hmid
  unfold reducePosition
  rw [getPosition_eq_self P p hp hkeys]
  simp

lemma resolveStep_snd (houseFee : Rat) (mid : Nat) (result : String)
    (l : List Position) (accP : List PayoutEntry) (P : List Position) :
    (l.foldl (resolveStep houseFee mid result) (accP, P)).2
      = l.foldl (fun P2 p =>
          if p.side = result then reducePosition p.userId mid p.side p.shares P2
          else P2) P := by
  induction l generalizing accP P with
  | nil => rfl
  | cons p rest ih =>
    by_cases hp : p.side = result
    · rw [List.foldl_cons, List.foldl_cons,
        show resolveStep houseFee mid result (accP, P) p
          = (accP ++ [⟨p.userId, p.username, p.shares,
                       round2 (p.shares * (1 - houseFee))⟩],
             reducePosition p.userId mid p.side p.shares P) from by
          simp [resolveStep, hp]]
      rw [ih]
      simp [hp]
    · rw [List.foldl_cons, List.foldl_cons,
        show resolveStep houseFee mid result (accP, P) p = (accP, P) from by
          simp [resolveStep, hp]]
      rw [ih]
      simp [hp]

lemma foldl_reduce_winners (mid : Nat) (result : String) :
    ∀ (l P : List Position), l.Sublist P → (P.map posKey).Nodup →
    (P.map Position.id).Nodup → (∀ p ∈ l, p.marketId = mid) →
    l.foldl (fun P2 p =>
        if p.side = result then reducePosition p.userId mid p.side p.shares P2
        else P2) P
      = P.filter (fun q =>
          ¬ q.id ∈ (l.filter (fun p => p.side = result)).map Position.id) := by
  intro l
  induction l with
  | nil =>
    intro P _ _ _ _
    simp
  | cons p rest ih =>
    intro P hsub hkeys hids hmid
    have hrest : rest.Sublist P := List.sublist_of_cons_sublist hsub
    have hpP : p ∈ P := hsub.subset (List.mem_cons_self p rest)
    have hconsids : ((p :: rest).map Position.id).Nodup :=
      ((hsub.map Position.id).nodup) hids
    have hallrest : ∀ q ∈ rest, ¬ q.id = p.id := by
      intro q hq hqid
      simp only [List.map_cons, List.nodup_cons] at hconsids
      exact hconsids.1 (List.mem_map.mpr ⟨q, hq, hqid⟩)
    by_cases hp : p.side = result
    · simp only [List.foldl_cons]
      rw [if_pos hp,
        reducePosition_self P p mid hpP (hmid p (List.mem_cons_self p rest)) hkeys]
      have hrest2 : rest.Sublist (P.filter (fun q => ¬ q.id = p.id)) := by
        have heq : rest.filter (fun q => ¬ q.id = p.id) = rest :=
          List.filter_eq_self.mpr (fun q hq => by simpa using hallrest q hq)
        have h3 := hrest.filter (fun q => decide (¬ q.id = p.id))
        rwa [heq] at h3
      have hfilsub : (P.filter (fun q => ¬ q.id = p.id)).Sublist P :=
        List.filter_sublist P
      rw [ih (P.filter (fun q => ¬ q.id = p.id)) hrest2
        ((hfilsub.map posKey).nodup hkeys)
        ((hfilsub.map Position.id).nodup hids)
        (fun q hq => hmid q (List.mem_cons_of_mem p hq))]
      rw [List.filter_filter]
      apply List.filter_congr
      intro q _
      by_cases h1 : q.id = p.id <;> by_cases h2 :
          q.id ∈ (rest.filter (fun x => x.side = result)).map Position.id <;>
        simp [h1, h2, hp]
    · simp only [List.foldl_cons]
      rw [if_neg hp]
      rw [ih P hrest hkeys hids (fun q hq => hmid q (List.mem_cons_of_mem p hq))]
      apply List.filter_congr
      intro q _
      simp [hp]

lemma resolveStep_fst (houseFee : Rat) (mid : Nat) (result : String)
    (l : List Position) (accP : List PayoutEntry) (P : List Position) :
    (l.foldl (resolveStep houseFee mid result) (accP, P)).1
      = accP ++ (l.filter (fun p => p.side = result)).map
          (fun p => ⟨p.userId, p.username, p.shares,
                     round2 (p.shares * (1 - houseFee))⟩) := by
  induction l generalizing accP P with
  | nil => simp
  | cons p rest ih =>
    by_cases hp : p.side = result
    · rw [List.foldl_cons,
        show resolveStep houseFee mid result (accP, P) p
          = (accP ++ [⟨p.userId, p.username, p.shares,
                       round2 (p.shares * (1 - houseFee))⟩],
             reducePosition p.userId mid p.side p.shares P) from by
          simp [resolveStep, hp],
        ih]
      simp [hp]
    · rw [List.foldl_cons,
        show resolveStep houseFee mid result (accP, P) p = (accP, P) from by
          simp [resolveStep, hp],
        ih]
      simp [hp]

set_option maxRecDepth 8000 in
/-- C2 counterexample: a concrete resolution with result NoResult.  The claim
says every position for the market is cleared, in particular under NoResult;
in fact the handler clears a position only inside the winner branch, so a
NoResult resolution leaves every position of the market in the ledger. -/
theorem resolve_noresult_cex :
    (resolveHandler (1/20) "k" "k" st0 1 "NoResult").1
      = .ok ({ mkt1 with status := "resolved", result := some "NoResult" }, []) ∧
    (resolveHandler (1/20) "k" "k" st0 1 "NoResult").2.positions = [posW, posL] ∧
    posW.marketId = 1 ∧ posL.marketId = 1 := by
  with_unfolding_all decide

/-- C2 amended: resolution clears exactly the winning positions of the market
(those whose side equals the result); losing positions — and, for NoResult,
every position — remain in the Position Ledger.  Stated under the positions
table invariants (unique row ids, unique (userId, marketId, side) keys). -/
theorem resolve_clears_only_winning_positions (houseFee : Rat) (key : String)
    (st : ServerState) (pid : Nat) (result : String) (m0 : Market)
    (hfind : st.activeMarkets.find? (fun m => m.id = pid) = some m0)
    (hkeys : (st.positions.map posKey).Nodup)
    (hids : (st.positions.map Position.id).Nodup) :
    (resolveHandler houseFee key key st pid result).2.positions
      = st.positions.filter
          (fun p => ¬ (p.marketId = m0.id ∧ p.side = result)) := by
  unfold resolveHandler
  rw [if_neg (by simp)]
  simp only [hfind, getPositionsByMarket]
  rw [resolveStep_snd]
  rw [foldl_reduce_winners m0.id result
    (st.positions.filter (fun p => p.marketId = m0.id)) st.positions
    (List.filter_sublist _) hkeys hids
    (fun p hp => by simpa using (List.mem_filter.mp hp).2)]
  apply List.filter_congr
  intro q hq
  have hiff : q.id ∈ ((st.positions.filter (fun p => p.marketId = m0.id)).filter
      (fun p => p.side = result)).map Position.id
      ↔ (q.marketId = m0.id ∧ q.side = result) := by
    constructor
    · intro hmem
      obtain ⟨w, hw, hwid⟩ := List.mem_map.mp hmem
      have hw1 := List.mem_filter.mp hw
      have hw2 := List.mem_filter.mp hw1.1
      have hwq : w = q :=
        mem_of_map_nodup Position.id st.positions hids hw2.1 hq hwid
      subst hwq
      exact ⟨by simpa using hw2.2, by simpa using hw1.2⟩
    · intro hqp
      exact List.mem_map.mpr ⟨q, List.mem_filter.mpr
        ⟨List.mem_filter.mpr ⟨hq, by simpa using hqp.1⟩, by simpa using hqp.2⟩,
        rfl⟩
  exact decide_eq_decide.mpr (not_congr hiff)

set_option maxRecDepth 8000 in
/-- C2 witness for the amended statement: resolving the sample market with
result Yes deletes exactly the Yes position and keeps bob's No position. -/
theorem resolve_clears_only_winning_positions_witness :
    (st0.activeMarkets.find? (fun m => m.id = 1) = some mkt1) ∧
    (resolveHandler (1/20) "k" "k" st0 1 "Yes").2.positions
      = st0.positions.filter
          (fun p => ¬ (p.marketId = mkt1.id ∧ p.side = "Yes")) :=
  ⟨by with_unfolding_all decide,
   resolve_clears_only_winning_positions (1/20) "k" st0 1 "Yes" mkt1
     (by with_unfolding_all decide) (by with_unfolding_all decide)
     (by with_unfolding_all decide)⟩

/-- C1: on a successful resolution, the payout list contains exactly one entry
per position whose side equals the result, and that entry pays the position's
share count times one currency unit, reduced by the house fee and rounded to
two decimals. -/
theorem resolve_pays_each_winner (houseFee : Rat) (key : String)
    (st : ServerState) (pid : Nat) (result : String) (m0 : Market)
    (hfind : st.activeMarkets.find? (fun m => m.id = pid) = some m0) :
    (resolveHandler houseFee key key st pid result).1 =
      .ok ({ m0 with status := "resolved", result := some result },
        ((getPositionsByMarket m0.id st.positions).filter
            (fun p => p.side = result)).map
          (fun p => ⟨p.userId, p.username, p.shares,
                     round2 (p.shares * (1 - houseFee))⟩)) := by
  unfold resolveHandler
  rw [if_neg (by simp)]
  simp only [hfind]
  rw [resolveStep_fst]
  simp

set_option maxRecDepth 8000 in
/-- C1 witness: the winning holder of 2 shares is paid round2(2*(1-1/20)). -/
theorem resolve_pays_each_winner_witness :
    (st0.activeMarkets.find? (fun m => m.id = 1) = some mkt1) ∧
    (resolveHandler (1/20) "k" "k" st0 1 "Yes").1 =
      .ok ({ mkt1 with status := "resolved", result := some "Yes" },
        ((getPositionsByMarket mkt1.id st0.positions).filter
            (fun p => p.side = "Yes")).map
          (fun p => ⟨p.userId, p.username, p.shares,
                     round2 (p.shares * (1 - (1/20)))⟩)) :=
  ⟨by with_unfolding_all decide,
   resolve_pays_each_winner (1/20) "k" st0 1 "Yes" mkt1
     (by with_unfolding_all decide)⟩

lemma getPosition_append_of_none (u : String) (mid : Nat) (side : String)
    (P l2 : List Position) (h : getPosition u mid side P = none) :
    getPosition u mid side (P ++ l2) = getPosition u mid side l2 := by
  unfold getPosition at h ⊢
  rw [List.find?_append, h]
  rfl

lemma getPosition_map_keyfix (u : String) (mid : Nat) (side : String)
    (P : List Position) (f : Position → Position)
    (hf : ∀ p, (f p).userId = p.userId ∧ (f p).marketId = p.marketId ∧
      (f p).side = p.side) :
    getPosition u mid side (P.map f) = (getPosition u mid side P).map f := by
  unfold getPosition
  rw [List.find?_map]
  have hpred : ((fun p : Position =>
        decide (p.userId = u ∧ p.marketId = mid ∧ p.side = side)) ∘ f)
      = fun p : Position =>
        decide (p.userId = u ∧ p.marketId = mid ∧ p.side = side) := by
    funext p
    rcases hf p with ⟨h1, h2, h3⟩
    simp [Function.comp, h1, h2, h3]
  rw [hpred]

lemma heldShares_upsert (u un : String) (mid : Nat) (side : String) (d : Rat)
    (P : List Position) (n : Nat) :
    heldShares u mid side (upsertPosition u un mid side d P n).1
      = heldShares u mid side P + d := by
  unfold upsertPosition
  cases hex : getPosition u mid side P with
  | none =>
    unfold heldShares
    rw [getPosition_append_of_none u mid side P _ hex, hex]
    simp [getPosition]
  | some ex =>
    unfold heldShares
    rw [getPosition_map_keyfix u mid side P _ (fun p => by
      by_cases hid : p.id = ex.id <;> simp [hid])]
    rw [hex]
    simp

/-- C7: a successful buy computes one share quantity from the pricing function
and uses it uniformly: the chosen pool grows by exactly that quantity, the
user's position on that side grows by exactly the same quantity, and a single
buy wager record carrying the spent amount and that quantity is appended. -/
theorem buy_updates_pool_position_and_log
    (sfa : Rat → Rat → Rat → SideKey → Rat → Rat) (now : Nat)
    (st : ServerState) (userId username : String) (pid : Nat) (side : String)
    (amount : Rat) (m0 : Market) (sk : SideKey)
    (hu : userId ≠ "") (hun : username ≠ "") (hside : side ≠ "")
    (hamt : 0 < amount)
    (hfind : st.activeMarkets.find? (fun m => m.id = pid) = some m0)
    (hopen : m0.status = "open")
    (hsk : sideKeyFor m0 side = some sk)
    (hdelta : 0 < sfa m0.q1 m0.q2 m0.b sk amount) :
    (betHandler sfa now st userId username pid side amount).1
      = .ok ⟨st.nextBetId, sfa m0.q1 m0.q2 m0.b sk amount, amount⟩ ∧
    ((betHandler sfa now st userId username pid side amount).2.activeMarkets.find?
        (fun m => m.id = pid)).map (fun m => poolOf m sk)
      = some (poolOf m0 sk + sfa m0.q1 m0.q2 m0.b sk amount) ∧
    heldShares userId pid side
        (betHandler sfa now st userId username pid side amount).2.positions
      = heldShares userId pid side st.positions
          + sfa m0.q1 m0.q2 m0.b sk amount ∧
    (betHandler sfa now st userId username pid side amount).2.bets
      = st.bets ++ [⟨st.nextBetId, userId, username, pid, side, amount,
                     sfa m0.q1 m0.q2 m0.b sk amount, "buy", now, false⟩] := by
  have hid : m0.id = pid := by simpa using List.find?_some hfind
  cases sk with
  | answer1 =>
    have hbet : betHandler sfa now st userId username pid side amount
        = (.ok ⟨st.nextBetId, sfa m0.q1 m0.q2 m0.b SideKey.answer1 amount, amount⟩,
           { st with
               activeMarkets := updateFirst
                 (fun _ => { m0 with
                   q1 := m0.q1 + sfa m0.q1 m0.q2 m0.b SideKey.answer1 amount })
                 (fun m => m.id = pid) st.activeMarkets,
               bets := st.bets ++ [⟨st.nextBetId, userId, username, pid, side,
                 amount, sfa m0.q1 m0.q2 m0.b SideKey.answer1 amount, "buy",
                 now, false⟩],
               positions := (upsertPosition userId username pid side
                 (sfa m0.q1 m0.q2 m0.b SideKey.answer1 amount)
                 st.positions st.nextPosId).1,
               nextPosId := (upsertPosition userId username pid side
                 (sfa m0.q1 m0.q2 m0.b SideKey.answer1 amount)
                 st.positions st.nextPosId).2,
               nextBetId := st.nextBetId + 1 }) := by
      unfold betHandler
      simp [hfind, hsk, hopen, hu, hun, hside, not_le.mpr hamt,
        not_le.mpr hdelta, saveBet]
    rw [hbet]
    refine ⟨rfl, ?_, ?_, rfl⟩
    · rw [find?_updateFirst (fun m => m.id = pid)
        { m0 with q1 := m0.q1 + sfa m0.q1 m0.q2 m0.b SideKey.answer1 amount }
        st.activeMarkets m0 hfind (by simp [hid])]
      simp [poolOf]
    · exact heldShares_upsert userId username pid side
        (sfa m0.q1 m0.q2 m0.b SideKey.answer1 amount) st.positions st.nextPosId
  | answer2 =>
    have hbet : betHandler sfa now st userId username pid side amount
        = (.ok ⟨st.nextBetId, sfa m0.q1 m0.q2 m0.b SideKey.answer2 amount, amount⟩,
           { st with
               activeMarkets := updateFirst
                 (fun _ => { m0 with
                   q2 := m0.q2 + sfa m0.q1 m0.q2 m0.b SideKey.answer2 amount })
                 (fun m => m.id = pid) st.activeMarkets,
               bets := st.bets ++ [⟨st.nextBetId, userId, username, pid, side,
                 amount, sfa m0.q1 m0.q2 m0.b SideKey.answer2 amount, "buy",
                 now, false⟩],
               positions := (upsertPosition userId username pid side
                 (sfa m0.q1 m0.q2 m0.b SideKey.answer2 amount)
                 st.positions st.nextPosId).1,
               nextPosId := (upsertPosition userId username pid side
                 (sfa m0.q1 m0.q2 m0.b SideKey.answer2 amount)
                 st.positions st.nextPosId).2,
               nextBetId := st.nextBetId + 1 }) := by
      unfold betHandler
      simp [hfind, hsk, hopen, hu, hun, hside, not_le.mpr hamt,
        not_le.mpr hdelta, saveBet]
    rw [hbet]
    refine ⟨rfl, ?_, ?_, rfl⟩
    · rw [find?_updateFirst (fun m => m.id = pid)
        { m0 with q2 := m0.q2 + sfa m0.q1 m0.q2 m0.b SideKey.answer2 amount }
        st.activeMarkets m0 hfind (by simp [hid])]
      simp [poolOf]
    · exact heldShares_upsert userId username pid side
        (sfa m0.q1 m0.q2 m0.b SideKey.answer2 amount) st.positions st.nextPosId

set_option maxRecDepth 8000 in
/-- C7 witness: carol buys 5 on Yes in the sample state; the Yes pool, her
position and the appended record all carry the same share quantity. -/
theorem buy_updates_pool_position_and_log_witness :
    (betHandler linearShares 99 st0 "u3" "carol" 1 "Yes" 5).1
      = .ok ⟨st0.nextBetId, linearShares mkt1.q1 mkt1.q2 mkt1.b SideKey.answer1 5, 5⟩ ∧
    ((betHandler linearShares 99 st0 "u3" "carol" 1 "Yes" 5).2.activeMarkets.find?
        (fun m => m.id = 1)).map (fun m => poolOf m SideKey.answer1)
      = some (poolOf mkt1 SideKey.answer1
          + linearShares mkt1.q1 mkt1.q2 mkt1.b SideKey.answer1 5) ∧
    heldShares "u3" 1 "Yes"
        (betHandler linearShares 99 st0 "u3" "carol" 1 "Yes" 5).2.positions
      = heldShares "u3" 1 "Yes" st0.positions
          + linearShares mkt1.q1 mkt1.q2 mkt1.b SideKey.answer1 5 ∧
    (betHandler linearShares 99 st0 "u3" "carol" 1 "Yes" 5).2.bets
      = st0.bets ++ [⟨st0.nextBetId, "u3", "carol", 1, "Yes", 5,
          linearShares mkt1.q1 mkt1.q2 mkt1.b SideKey.answer1 5, "buy", 99,
          false⟩] :=
  buy_updates_pool_position_and_log linearShares 99 st0 "u3" "carol" 1 "Yes" 5
    mkt1 SideKey.answer1 (by decide) (by decide) (by decide) (by norm_num)
    (by with_unfolding_all decide) (by decide) (by decide)
    (by with_unfolding_all decide)

set_option maxRecDepth 8000 in
/-- C8 counterexample: a sell request whose side string matches neither of the
market's two answers is not rejected with the invalid-side error; the cashout
handler never validates the side string and instead fails with the
insufficient-shares error (no position row exists under that side string). -/
theorem cashout_invalid_side_cex :
    (cashoutHandler linearShares (1/20) 99 st0 "u1" "alice" 1 "Maybe" 1).1
      = .error .notEnoughShares ∧
    ApiError.notEnoughShares ≠ ApiError.invalidSide ∧
    mkt1.Answer1 = "Yes" ∧ mkt1.Answer2 = "No" := by
  with_unfolding_all decide

/-- C8 amended: a buy request with a side string matching neither answer fails
with InvalidSide and changes no state; a sell request never reaches an
invalid-side check — when the user holds no position row under that exact
side string it fails with InsufficientShares instead, also changing no
state. -/
theorem invalid_side_rejected
    (sfa afs : Rat → Rat → Rat → SideKey → Rat → Rat) (houseFee : Rat)
    (now : Nat) (st : ServerState) (userId username : String) (pid : Nat)
    (side : String) (amount s : Rat) (m0 : Market)
    (hu : userId ≠ "") (hun : username ≠ "") (hside : side ≠ "")
    (hamt : 0 < amount) (hs : 0 < s)
    (hfind : st.activeMarkets.find? (fun m => m.id = pid) = some m0)
    (hopen : m0.status = "open")
    (hA : side ≠ m0.Answer1) (hB : side ≠ m0.Answer2)
    (hnopos : getPosition userId pid side st.positions = none) :
    betHandler sfa now st userId username pid side amount
      = (.error .invalidSide, st) ∧
    cashoutHandler afs houseFee now st userId username pid side s
      = (.error .notEnoughShares, st) := by
  constructor
  · unfold betHandler
    simp [hfind, hu, hun, hside, not_le.mpr hamt, hopen, sideKeyFor, hA, hB]
  · unfold cashoutHandler
    simp [hfind, hu, hun, hside, not_le.mpr hs, hopen, hnopos]

/-- C8 witness: side string Maybe on the sample Yes/No market. -/
theorem invalid_side_rejected_witness :
    betHandler linearShares 99 st0 "u1" "alice" 1 "Maybe" 5
      = (.error .invalidSide, st0) ∧
    cashoutHandler linearShares (1/20) 99 st0 "u1" "alice" 1 "Maybe" 1
      = (.error .notEnoughShares, st0) :=
  invalid_side_rejected linearShares linearShares (1/20) 99 st0 "u1" "alice" 1
    "Maybe" 5 1 mkt1 (by decide) (by decide) (by decide) (by norm_num)
    (by norm_num) (by decide) (by decide) (by decide) (by decide) (by decide)

/-- C10: expiry never blocks a trade.  With the market still in the active
list and open, and the other preconditions met, both a buy and a sell succeed
even when the current time is at or past the market's expires timestamp: the
handlers never read the expiry field. -/
theorem trade_succeeds_past_expiry
    (sfa afs : Rat → Rat → Rat → SideKey → Rat → Rat) (houseFee : Rat)
    (now : Nat) (st : ServerState) (userId username : String) (pid : Nat)
    (side : String) (amount s : Rat) (m0 : Market) (sk : SideKey)
    (pos : Position)
    (hexp : m0.expires ≤ now)
    (hu : userId ≠ "") (hun : username ≠ "") (hside : side ≠ "")
    (hamt : 0 < amount) (hs : 0 < s)
    (hfind : st.activeMarkets.find? (fun m => m.id = pid) = some m0)
    (hopen : m0.status = "open")
    (hsk : sideKeyFor m0 side = some sk)
    (hdelta : 0 < sfa m0.q1 m0.q2 m0.b sk amount)
    (hpos : getPosition userId pid side st.positions = some pos)
    (hheld : s ≤ pos.shares) :
    (∃ v, (betHandler sfa now st userId username pid side amount).1 = .ok v) ∧
    (∃ w, (cashoutHandler afs houseFee now st userId username pid side s).1
      = .ok w) := by
  constructor
  · refine ⟨⟨st.nextBetId, sfa m0.q1 m0.q2 m0.b sk amount, amount⟩, ?_⟩
    unfold betHandler
    cases sk <;>
      simp [hfind, hsk, hopen, hu, hun, hside, not_le.mpr hamt,
        not_le.mpr hdelta, saveBet]
  · refine ⟨round2 (afs m0.q1 m0.q2 m0.b
      (if side = m0.Answer1 then SideKey.answer1 else SideKey.answer2) s
        * (1 - houseFee)), ?_⟩
    unfold cashoutHandler
    simp [hfind, hopen, hu, hun, hside, not_le.mpr hs, hpos,
      not_lt.mpr hheld, saveBet]

/-- C10 witness: the sample market expired at time 1000 and the trades are
submitted at time 5000; both still succeed. -/
theorem trade_succeeds_past_expiry_witness :
    (∃ v, (betHandler linearShares 5000 st0 "u1" "alice" 1 "Yes" 5).1 = .ok v) ∧
    (∃ w, (cashoutHandler linearShares (1/20) 5000 st0 "u1" "alice" 1 "Yes" 1).1
      = .ok w) :=
  trade_succeeds_past_expiry linearShares linearShares (1/20) 5000 st0 "u1"
    "alice" 1 "Yes" 5 1 mkt1 SideKey.answer1 posW (by decide) (by decide)
    (by decide) (by decide) (by norm_num) (by norm_num) (by decide) (by decide)
    (by decide) (by with_unfolding_all decide) (by decide)
    (by with_unfolding_all decide)

lemma cost_comm (qA qB b : ℝ) : cost qA qB b = cost qB qA b := by
  unfold cost
  rw [add_comm]

lemma le_cost (qA qB b : ℝ) (hb : 0 < b) : qA ≤ cost qA qB b := by
  unfold cost
  have h1 : Real.exp (qA / b) ≤ Real.exp (qA / b) + Real.exp (qB / b) :=
    le_add_of_nonneg_right (Real.exp_pos _).le
  have h2 : Real.log (Real.exp (qA / b))
      ≤ Real.log (Real.exp (qA / b) + Real.exp (qB / b)) :=
    Real.log_le_log (Real.exp_pos _) h1
  rw [Real.log_exp] at h2
  have h3 := mul_le_mul_of_nonneg_left h2 hb.le
  calc qA = b * (qA / b) := by field_simp
    _ ≤ b * Real.log (Real.exp (qA / b) + Real.exp (qB / b)) := h3

lemma continuous_cost_left (qA qB b : ℝ) :
    Continuous fun d : ℝ => cost (qA + d) qB b := by
  unfold cost
  apply continuous_const.mul
  apply Continuous.log
  · exact (Real.continuous_exp.comp
      ((continuous_const.add continuous_id).div_const b)).add continuous_const
  · intro x
    positivity

lemma exists_spend (qA qB b amount : ℝ) (hb : 0 < b) (ha : 0 < amount) :
    ∃ d, 0 ≤ d ∧ cost (qA + d) qB b - cost qA qB b = amount := by
  have hC0 : qA ≤ cost qA qB b := le_cost qA qB b hb
  have hM0 : (0:ℝ) ≤ amount + cost qA qB b - qA := by linarith
  have hfM : amount ≤ cost (qA + (amount + cost qA qB b - qA)) qB b
      - cost qA qB b := by
    have h1 := le_cost (qA + (amount + cost qA qB b - qA)) qB b hb
    linarith
  have hcont : ContinuousOn (fun d => cost (qA + d) qB b - cost qA qB b)
      (Set.Icc 0 (amount + cost qA qB b - qA)) :=
    ((continuous_cost_left qA qB b).sub continuous_const).continuousOn
  have hmem : amount ∈ Set.Icc
      ((fun d => cost (qA + d) qB b - cost qA qB b) 0)
      ((fun d => cost (qA + d) qB b - cost qA qB b)
        (amount + cost qA qB b - qA)) := by
    constructor
    · simp only [add_zero, sub_self]
      exact ha.le
    · simpa using hfM
  obtain ⟨d, hdIcc, hfd⟩ := intermediate_value_Icc hM0 hcont hmem
  exact ⟨d, hdIcc.1, hfd⟩

lemma sharesForSpend_spec1 (qA qB b amount : ℝ) (hb : 0 < b)
    (ha : 0 < amount) :
    0 ≤ sharesForSpend SideKey.answer1 qA qB b amount ∧
    cost (qA + sharesForSpend SideKey.answer1 qA qB b amount) qB b
      - cost qA qB b = amount := by
  have hex : ∃ d, 0 ≤ d ∧
      costAfterBuy SideKey.answer1 qA qB b d - cost qA qB b = amount := by
    simpa [costAfterBuy] using exists_spend qA qB b amount hb ha
  unfold sharesForSpend
  rw [if_neg (not_le.mpr ha), dif_pos hex]
  have h := hex.choose_spec
  exact ⟨h.1, by simpa [costAfterBuy] using h.2⟩

lemma roundtrip_answer1 (qA qB b amount : ℝ) (hb : 0 < b) (hA : 0 ≤ qA)
    (ha : 0 < amount) :
    amountForSell SideKey.answer1
        (qA + sharesForSpend SideKey.answer1 qA qB b amount) qB b
        (sharesForSpend SideKey.answer1 qA qB b amount) ≤ amount := by
  obtain ⟨hd0, hcost⟩ := sharesForSpend_spec1 qA qB b amount hb ha
  unfold amountForSell
  simp only
  rw [add_sub_cancel_right, max_eq_right hA]
  linarith

lemma costAfterBuy_swap (qA qB b d : ℝ) :
    costAfterBuy SideKey.answer2 qA qB b d
      = costAfterBuy SideKey.answer1 qB qA b d := by
  simp only [costAfterBuy]
  exact cost_comm qA (qB + d) b

lemma sharesForSpend_swap (qA qB b amount : ℝ) :
    sharesForSpend SideKey.answer2 qA qB b amount
      = sharesForSpend SideKey.answer1 qB qA b amount := by
  have hpred : (fun d : ℝ => 0 ≤ d ∧
        costAfterBuy SideKey.answer2 qA qB b d - cost qA qB b = amount)
      = fun d : ℝ => 0 ≤ d ∧
        costAfterBuy SideKey.answer1 qB qA b d - cost qB qA b = amount := by
    funext d
    rw [costAfterBuy_swap, cost_comm qA qB b]
  unfold sharesForSpend
  rw [hpred]

lemma amountForSell_swap (qA qB b s : ℝ) :
    amountForSell SideKey.answer2 qA qB b s
      = amountForSell SideKey.answer1 qB qA b s := by
  simp only [amountForSell]
  rw [cost_comm qA qB b, cost_comm qA (max 0 (qB - s)) b]

/-- C9: buying with a positive amount and immediately selling back the shares
the purchase produced never returns more than the amount spent — with the
spec's exact pricing model the round trip returns the amount exactly, hence
at most the amount; stated for both sides of the market. -/
theorem buy_then_sell_never_gains (qA qB b amount : ℝ)
    (hb : 0 < b) (hA : 0 ≤ qA) (hB : 0 ≤ qB) (ha : 0 < amount) :
    amountForSell SideKey.answer1
        (qA + sharesForSpend SideKey.answer1 qA qB b amount) qB b
        (sharesForSpend SideKey.answer1 qA qB b amount) ≤ amount ∧
    amountForSell SideKey.answer2 qA
        (qB + sharesForSpend SideKey.answer2 qA qB b amount) b
        (sharesForSpend SideKey.answer2 qA qB b amount) ≤ amount := by
  refine ⟨roundtrip_answer1 qA qB b amount hb hA ha, ?_⟩
  rw [sharesForSpend_swap, amountForSell_swap]
  exact roundtrip_answer1 qB qA b amount hb hB ha

/-- C9 witness: empty pools, liquidity 1, spend 1. -/
theorem buy_then_sell_never_gains_witness :
    (0:ℝ) < 1 ∧ (0:ℝ) ≤ 0 ∧
    (amountForSell SideKey.answer1
        (0 + sharesForSpend SideKey.answer1 0 0 1 1) 0 1
        (sharesForSpend SideKey.answer1 0 0 1 1) ≤ 1 ∧
     amountForSell SideKey.answer2 0
        (0 + sharesForSpend SideKey.answer2 0 0 1 1) 1
        (sharesForSpend SideKey.answer2 0 0 1 1) ≤ 1) :=
  ⟨by norm_num, by norm_num,
   buy_then_sell_never_gains 0 0 1 1 (by norm_num) (by norm_num) (by norm_num)
     (by norm_num)⟩

/-- C5 witness: alice holds 2 Yes shares and asks to sell 3. -/
theorem sell_insufficient_shares_rejected_witness :
    cashoutHandler linearShares (1/20) 99 st0 "u1" "alice" 1 "Yes" 3
      = (.error .notEnoughShares, st0) :=
  sell_insufficient_shares_rejected linearShares (1/20) 99 st0 "u1" "alice" 1
    "Yes" 3 mkt1 (by decide) (by decide) (by decide) (by norm_num) (by decide)
    (by decide) (by decide)

end PredMarket
